import Mathlib

/-!
Verification development for the `pge` physics core (`src/src/physics.h`).

The C code computes with IEEE-754 single-precision floats.  The main model
below is the standard exact-arithmetic idealization over `ℝ`: every float
scalar becomes a real number, `sqrtf` becomes `Real.sqrt`, and each C
function is translated line by line.  All concrete inputs used by the
spec's testable properties are exactly representable, and the spec states
its numeric expectations in exact terms, so this is the faithful reading
for those claims.

Where a claim hinges on IEEE special values (division by a zero mass
producing infinities and NaNs), the real-number idealization is *not*
faithful, and a second model `F` of IEEE-style extended values
(finite / +inf / -inf / NaN, exact rational payloads, no rounding, no
signed zero) is used to evaluate the code at the concrete inputs in
question; every operation applied there stays exact, so rounding and zero
signs never matter on the evaluated paths.
-/

noncomputable section

/-- Embedding of `PGEVec3` (`struct { float x, y, z; }`). -/
@[ext] structure PGEVec3 where
  x : ℝ
  y : ℝ
  z : ℝ

/-- Embedding of `pge_vec3_new`. -/
def pge_vec3_new (x y z : ℝ) : PGEVec3 := ⟨x, y, z⟩

/-- Embedding of `Vec3_add`. -/
def Vec3_add (a b : PGEVec3) : PGEVec3 := ⟨a.x + b.x, a.y + b.y, a.z + b.z⟩

/-- Embedding of `Vec3_sub`. -/
def Vec3_sub (a b : PGEVec3) : PGEVec3 := ⟨a.x - b.x, a.y - b.y, a.z - b.z⟩

/-- Embedding of `Vec3_scale`. -/
def Vec3_scale (v : PGEVec3) (s : ℝ) : PGEVec3 := ⟨v.x * s, v.y * s, v.z * s⟩

/-- Embedding of `Vec3_dot`. -/
def Vec3_dot (a b : PGEVec3) : ℝ := a.x * b.x + a.y * b.y + a.z * b.z

/-- Embedding of `Vec3_cross`. -/
def Vec3_cross (a b : PGEVec3) : PGEVec3 :=
  ⟨a.y * b.z - a.z * b.y, a.z * b.x - a.x * b.z, a.x * b.y - a.y * b.x⟩

/-- Embedding of `Vec3_length` (`sqrtf` idealized as `Real.sqrt`). -/
def Vec3_length (v : PGEVec3) : ℝ := Real.sqrt (Vec3_dot v v)

/-- Embedding of `Vec3_normalized`: returns `v` unchanged when the length
is zero, otherwise scales by the reciprocal length. -/
def Vec3_normalized (v : PGEVec3) : PGEVec3 :=
  if Vec3_length v = 0 then v else Vec3_scale v (1 / Vec3_length v)

/-- Embedding of `PGEQuat` (`struct { float w, x, y, z; }`). -/
@[ext] structure PGEQuat where
  w : ℝ
  x : ℝ
  y : ℝ
  z : ℝ

/-- Embedding of `Quaternion_identity`. -/
def Quaternion_identity : PGEQuat := ⟨1, 0, 0, 0⟩

/-- Embedding of `Quaternion_scale`. -/
def Quaternion_scale (q : PGEQuat) (s : ℝ) : PGEQuat := ⟨q.w * s, q.x * s, q.y * s, q.z * s⟩

/-- Embedding of `Quaternion_mag`. -/
def Quaternion_mag (q : PGEQuat) : ℝ :=
  Real.sqrt (q.w * q.w + q.x * q.x + q.y * q.y + q.z * q.z)

/-- Embedding of `Quaternion_normalized`.  Note the C code divides by the
magnitude with no zero guard; real division by zero is modelled by Lean's
`x / 0 = 0` but no claim evaluates this function at a zero quaternion. -/
def Quaternion_normalized (q : PGEQuat) : PGEQuat :=
  let m := Quaternion_mag q
  ⟨q.w / m, q.x / m, q.y / m, q.z / m⟩

/-- Embedding of `Quaternion_mul` (Hamilton product, as written in C). -/
def Quaternion_mul (a b : PGEQuat) : PGEQuat :=
  ⟨a.w * b.w - a.x * b.x - a.y * b.y - a.z * b.z,
   a.w * b.x + a.x * b.w + a.y * b.z - a.z * b.y,
   a.w * b.y - a.x * b.z + a.y * b.w + a.z * b.x,
   a.w * b.z + a.x * b.y - a.y * b.x + a.z * b.w⟩

/-- Embedding of `pge_quat_integrate`: `qdot = 0.5 * (omega * q)`, advance
componentwise by `dt`, renormalize. -/
def pge_quat_integrate (q : PGEQuat) (av : PGEVec3) (dt : ℝ) : PGEQuat :=
  let omega : PGEQuat := ⟨0, av.x, av.y, av.z⟩
  let qdot := Quaternion_scale (Quaternion_mul omega q) (1 / 2)
  let r : PGEQuat := ⟨q.w + qdot.w * dt, q.x + qdot.x * dt, q.y + qdot.y * dt, q.z + qdot.z * dt⟩
  Quaternion_normalized r

/-- Embedding of `CollisionShape` (tagged union with `type` collapsed into
the variant). -/
inductive CollisionShape where
  | plane (width height : ℝ)
  | sphere (radius : ℝ)
  | box (width height depth : ℝ)

/-- Embedding of `struct RigidBody`. -/
structure RigidBody where
  position : PGEVec3
  velocity : PGEVec3
  mass : ℝ
  restitution : ℝ
  rot : PGEQuat
  avel : PGEVec3
  inertia : ℝ
  shape : CollisionShape

/-- Embedding of `Joint` without the two `RigidBody*` back-references: the
bodies are passed to `Joint_solve` explicitly and returned updated, which
models the in-place mutation through the pointers. -/
structure Joint where
  anchorA : PGEVec3
  anchorB : PGEVec3
  distance : ℝ

/-- Embedding of `Joint_solve`, line by line: world anchors, separation
`diff` and its length, normal (`diff` itself when the length is zero),
constraint error `c = len - distance`, combined `invMass`, impulse
`n * (-c / invMass)`, subtracted from body A's velocity scaled by
`1/massA` and added to body B's velocity scaled by `1/massB`.  The
division by a zero mass is real division here (`1/0 = 0`); the IEEE
behaviour of that path is treated separately in the `F` model below. -/
def Joint_solve (joint : Joint) (bodyA bodyB : RigidBody) : RigidBody × RigidBody :=
  let rA := joint.anchorA
  let rB := joint.anchorB
  let pA := Vec3_add bodyA.position rA
  let pB := Vec3_add bodyB.position rB
  let diff := Vec3_sub pB pA
  let len := Vec3_length diff
  let n := if len = 0 then diff else Vec3_scale diff (1 / len)
  let c := len - joint.distance
  let invMass := 1 / bodyA.mass + 1 / bodyB.mass
  let impulse := Vec3_scale n (-c / invMass)
  ({ bodyA with velocity := Vec3_sub bodyA.velocity (Vec3_scale impulse (1 / bodyA.mass)) },
   { bodyB with velocity := Vec3_add bodyB.velocity (Vec3_scale impulse (1 / bodyB.mass)) })

/-- Embedding of `RigidBody_integrate`: `position += velocity * dt`. -/
def RigidBody_integrate (body : RigidBody) (dt : ℝ) : RigidBody :=
  { body with position := Vec3_add body.position (Vec3_scale body.velocity dt) }

end

/-- Embedding of `struct Cell`.  `count`/`capacity`/`bodies` collapse into a
list of body indices (modelling the `RigidBody**` array of pointers into the
scene's body array); the `next` chain pointer becomes the position in a
`List Cell` per table slot. -/
structure Cell where
  x : Int
  y : Int
  z : Int
  bodies : List Nat
deriving DecidableEq

/-- Embedding of `Grid`: `table` is the hash table, one chain per slot; the
C invariant is `table.length = size`. -/
structure Grid where
  size : Nat
  table : List (List Cell)
deriving DecidableEq

/-- Cast of an `int` to C `unsigned int` (wraps modulo `2^32`). -/
def u32 (n : Int) : Nat := (n % (2 ^ 32)).toNat

/-- Embedding of `hash`: 32-bit wrapping multiplies, XOR, then modulo the
table size. -/
def hash (x y z : Int) (size : Nat) : Nat :=
  (((u32 x * 73856093) % 2 ^ 32) ^^^ ((u32 y * 19349663) % 2 ^ 32) ^^^
    ((u32 z * 83492791) % 2 ^ 32)) % size

/-- Embedding of `pge_create_cell`.  The C code (line 79) writes `x`, `y`,
`count` and `capacity` but never writes `z`, so the fresh bucket's `z`
field holds whatever the malloc'd memory contained; the `junk` parameter
models that indeterminate value.  (The `bodies` array is also never
actually allocated — line 80 casts a byte size to a pointer — a memory bug
below this value-level model; `count = 0` makes the list start empty.) -/
def pge_create_cell (junk : Int) (x y z : Int) : Cell := ⟨x, y, junk, []⟩

/-- Chain walk of `pge_get_cell`: the C code (line 88) compares only `x`
and `y`, never `z`. -/
def findCell : List Cell → Int → Int → Option Cell
  | [], _, _ => none
  | c :: rest, x, y => if c.x = x ∧ c.y = y then some c else findCell rest x y

/-- Embedding of `pge_get_cell`: hash to a slot, walk the chain, return the
first match, else push a freshly created cell onto the slot's chain.  The
mutation of the grid is modelled by returning the updated grid; `junk`
models the uninitialized `z` of a created cell. -/
def pge_get_cell (junk : Int) (grid : Grid) (x y z : Int) : Cell × Grid :=
  let index := hash x y z grid.size
  let chain := grid.table.getD index []
  match findCell chain x y with
  | some c => (c, grid)
  | none =>
      let newCell := pge_create_cell junk x y z
      (newCell, ⟨grid.size, grid.table.set index (newCell :: chain)⟩)

/-- Embedding of `Scene`: contiguous body array (as a list), gravity, grid. -/
structure Scene where
  bodies : List RigidBody
  gravity : PGEVec3
  grid : Grid

noncomputable section

/-- Per-body work of the `scene_update` loop (lines 145-149): add
`gravity * dt` to velocity, integrate position by the updated velocity,
integrate orientation by angular velocity. -/
def scene_update_body (gravity : PGEVec3) (dt : ℝ) (b : RigidBody) : RigidBody :=
  let b1 := { b with velocity := Vec3_add b.velocity (Vec3_scale gravity dt) }
  let b2 := RigidBody_integrate b1 dt
  { b2 with rot := pge_quat_integrate b2.rot b2.avel dt }

/-- Embedding of `scene_update`: runs the per-body update over every body. -/
def scene_update (scene : Scene) (dt : ℝ) : Scene :=
  { scene with bodies := scene.bodies.map (scene_update_body scene.gravity dt) }

/-- Per-pair body of the `scene_detect_collisions` loops (lines 157-168):
skip when both masses are zero, skip on zero separation, otherwise the
impulse formula with implicit rest distance 1 and body centers as anchors.
As in `Joint_solve`, the division by a zero mass is real division here
(`1/0 = 0`), faithful only away from zero masses; the IEEE behaviour of
the zero-mass path is covered by `resolve_pairF` below. -/
def resolve_pair (bodyA bodyB : RigidBody) : RigidBody × RigidBody :=
  if bodyA.mass = 0 ∧ bodyB.mass = 0 then (bodyA, bodyB)
  else
    let diff := Vec3_sub bodyB.position bodyA.position
    let len := Vec3_length diff
    if len = 0 then (bodyA, bodyB)
    else
      let n := Vec3_scale diff (1 / len)
      let c := len - 1
      let invMass := 1 / bodyA.mass + 1 / bodyB.mass
      let impulse := Vec3_scale n (-c / invMass)
      ({ bodyA with velocity := Vec3_sub bodyA.velocity (Vec3_scale impulse (1 / bodyA.mass)) },
       { bodyB with velocity := Vec3_add bodyB.velocity (Vec3_scale impulse (1 / bodyB.mass)) })

/-- Applies `resolve_pair` to the bodies at indices `ia`, `ib` of the body
list, writing both results back (the C code mutates through the two
`RigidBody*`). -/
def resolve_pair_in (bodies : List RigidBody) (ia ib : Nat) : List RigidBody :=
  match bodies[ia]?, bodies[ib]? with
  | some a, some b =>
      let r := resolve_pair a b
      (bodies.set ia r.1).set ib r.2
  | _, _ => bodies

end

/-- Index pairs `(l[i], l[j])` for `i < j` in the order of the nested
`for` loops of `scene_detect_collisions` (lines 155-156). -/
def pairsOf : List Nat → List (Nat × Nat)
  | [] => []
  | x :: rest => rest.map (fun y => (x, y)) ++ pairsOf rest

noncomputable section

/-- Work of `scene_detect_collisions` on one cell: skip cells with fewer
than two occupants, otherwise resolve every pair in loop order. -/
def scene_detect_cell (bodies : List RigidBody) (cell : Cell) : List RigidBody :=
  if cell.bodies.length < 2 then bodies
  else (pairsOf cell.bodies).foldl (fun bs p => resolve_pair_in bs p.1 p.2) bodies

/-- Embedding of `scene_detect_collisions`.  For each table slot the C code
(lines 152-154) reads only the head cell of the chain (it never follows
`next` here) and skips when `count < 2`; an empty slot is a NULL pointer
whose `count` the C code reads with no guard (undefined behaviour) — the
model applies the code's own fewer-than-two-occupants skip to that vacuous
case.  The loop bound `grid.size` equals the table length under the grid
invariant, so the fold runs over the table. -/
def scene_detect_collisions (scene : Scene) : Scene :=
  { scene with
    bodies := scene.grid.table.foldl (fun bs chain =>
      match chain.head? with
      | none => bs
      | some cell => scene_detect_cell bs cell) scene.bodies }

end

/-- Floor square root on naturals by bounded linear search; kept
kernel-reducible so concrete evaluations go through `decide`.  It is exact
on perfect squares, the only place the development evaluates it. -/
def natSqrt (n : Nat) : Nat :=
  (List.range (n + 1)).foldl (fun acc k => if k * k ≤ n then k else acc) 0

/-- Square root on nonnegative rationals via the numerator and denominator
roots; exact on perfect squares (numerator and denominator both perfect
squares), where it agrees with IEEE `sqrtf` on exactly representable
arguments. -/
def ratSqrt (q : ℚ) : ℚ := (natSqrt q.num.toNat : ℚ) / (natSqrt q.den : ℚ)

/-- IEEE-754-style extended value: NaN, the two infinities, or a finite
value with an exact rational payload.  Rounding and signed zero are not
modelled; every concrete evaluation below stays on operations where both
are irrelevant (all intermediate finite values exact, no zero-sign-
dependent branch). -/
inductive F where
  | nan : F
  | inf : F
  | ninf : F
  | fin : ℚ → F
deriving DecidableEq

/-- IEEE negation. -/
def F.neg : F → F
  | nan => nan
  | inf => ninf
  | ninf => inf
  | fin a => fin (-a)

/-- IEEE addition: NaN propagates, opposite infinities give NaN. -/
def F.add : F → F → F
  | nan, _ => nan
  | _, nan => nan
  | inf, ninf => nan
  | ninf, inf => nan
  | inf, _ => inf
  | _, inf => inf
  | ninf, _ => ninf
  | _, ninf => ninf
  | fin a, fin b => fin (a + b)

/-- IEEE subtraction, as addition of the negation. -/
def F.sub (a b : F) : F := F.add a (F.neg b)

/-- IEEE multiplication: NaN propagates, zero times an infinity is NaN. -/
def F.mul : F → F → F
  | nan, _ => nan
  | _, nan => nan
  | inf, inf => inf
  | inf, ninf => ninf
  | ninf, inf => ninf
  | ninf, ninf => inf
  | inf, fin b => if b = 0 then nan else if 0 < b then inf else ninf
  | fin a, inf => if a = 0 then nan else if 0 < a then inf else ninf
  | ninf, fin b => if b = 0 then nan else if 0 < b then ninf else inf
  | fin a, ninf => if a = 0 then nan else if 0 < a then ninf else inf
  | fin a, fin b => fin (a * b)

/-- IEEE division: NaN propagates, `inf/inf` and `0/0` are NaN, a nonzero
finite value over zero is a (signed) infinity, a finite value over an
infinity is zero. -/
def F.div : F → F → F
  | nan, _ => nan
  | _, nan => nan
  | inf, inf => nan
  | inf, ninf => nan
  | ninf, inf => nan
  | ninf, ninf => nan
  | inf, fin b => if 0 ≤ b then inf else ninf
  | ninf, fin b => if 0 ≤ b then ninf else inf
  | fin _, inf => fin 0
  | fin _, ninf => fin 0
  | fin a, fin b =>
      if b = 0 then (if a = 0 then nan else if 0 < a then inf else ninf)
      else fin (a / b)

/-- IEEE square root: NaN on negative arguments, exact on the perfect
squares this development evaluates it at. -/
def F.sqrt : F → F
  | nan => nan
  | inf => inf
  | ninf => nan
  | fin a => if a < 0 then nan else fin (ratSqrt a)

/-- Float-model counterpart of `PGEVec3`. -/
structure Vec3F where
  x : F
  y : F
  z : F
deriving DecidableEq

/-- Float-model counterpart of `Vec3_add`. -/
def Vec3F_add (a b : Vec3F) : Vec3F := ⟨F.add a.x b.x, F.add a.y b.y, F.add a.z b.z⟩

/-- Float-model counterpart of `Vec3_sub`. -/
def Vec3F_sub (a b : Vec3F) : Vec3F := ⟨F.sub a.x b.x, F.sub a.y b.y, F.sub a.z b.z⟩

/-- Float-model counterpart of `Vec3_scale`. -/
def Vec3F_scale (v : Vec3F) (s : F) : Vec3F := ⟨F.mul v.x s, F.mul v.y s, F.mul v.z s⟩

/-- Float-model counterpart of `Vec3_dot` (left-associated sum, as in C). -/
def Vec3F_dot (a b : Vec3F) : F :=
  F.add (F.add (F.mul a.x b.x) (F.mul a.y b.y)) (F.mul a.z b.z)

/-- Float-model counterpart of `Vec3_length`. -/
def Vec3F_length (v : Vec3F) : F := F.sqrt (Vec3F_dot v v)

/-- Float-model counterpart of `Joint_solve`, same line-by-line translation
but over IEEE-style values, so the division by a zero mass behaves as the
C float code does (`1/0 = +inf`, `0 * inf = NaN`).  The C condition
`len == 0` is false on NaN, matching `len = F.fin 0` here.  Returns the
two updated velocities. -/
def Joint_solveF (anchorA anchorB : Vec3F) (distance : F)
    (posA velA : Vec3F) (massA : F) (posB velB : Vec3F) (massB : F) :
    Vec3F × Vec3F :=
  let pA := Vec3F_add posA anchorA
  let pB := Vec3F_add posB anchorB
  let diff := Vec3F_sub pB pA
  let len := Vec3F_length diff
  let n := if len = F.fin 0 then diff else Vec3F_scale diff (F.div (F.fin 1) len)
  let c := F.sub len distance
  let invMass := F.add (F.div (F.fin 1) massA) (F.div (F.fin 1) massB)
  let impulse := Vec3F_scale n (F.div (F.neg c) invMass)
  (Vec3F_sub velA (Vec3F_scale impulse (F.div (F.fin 1) massA)),
   Vec3F_add velB (Vec3F_scale impulse (F.div (F.fin 1) massB)))

/-- Float-model counterpart of the per-pair body of
`scene_detect_collisions` (lines 157-168): skip when both masses compare
equal to zero, separation from body centers, skip when `len == 0`,
otherwise the impulse formula with implicit rest distance 1.  Returns the
two updated velocities. -/
def resolve_pairF (posA velA : Vec3F) (massA : F) (posB velB : Vec3F) (massB : F) :
    Vec3F × Vec3F :=
  if massA = F.fin 0 ∧ massB = F.fin 0 then (velA, velB)
  else
    let diff := Vec3F_sub posB posA
    let len := Vec3F_length diff
    if len = F.fin 0 then (velA, velB)
    else
      let n := Vec3F_scale diff (F.div (F.fin 1) len)
      let c := F.sub len (F.fin 1)
      let invMass := F.add (F.div (F.fin 1) massA) (F.div (F.fin 1) massB)
      let impulse := Vec3F_scale n (F.div (F.neg c) invMass)
      (Vec3F_sub velA (Vec3F_scale impulse (F.div (F.fin 1) massA)),
       Vec3F_add velB (Vec3F_scale impulse (F.div (F.fin 1) massB)))

/-- Zero vector in the float model. -/
def vzeroF : Vec3F := ⟨F.fin 0, F.fin 0, F.fin 0⟩

/-- Zero vector. -/
noncomputable def vzero : PGEVec3 := ⟨0, 0, 0⟩

/-- Builds a `RigidBody` with the fields the claims vary; restitution,
inertia and shape are fixed (they are unread by every routine here). -/
noncomputable def mkBody (pos vel : PGEVec3) (mass : ℝ) (avel : PGEVec3) : RigidBody :=
  ⟨pos, vel, mass, 1 / 2, Quaternion_identity, avel, 1, CollisionShape.sphere 1⟩

/-- Scene of the spec's `scene_update` test: one unit-mass body at the
origin with velocity `(1,0,0)` and angular velocity `(0,1,0)`, gravity
`(0,-9.81,0)`. -/
noncomputable def c3scene : Scene :=
  ⟨[mkBody ⟨0, 0, 0⟩ ⟨1, 0, 0⟩ 1 ⟨0, 1, 0⟩], ⟨0, -(981 / 100), 0⟩, ⟨1, [[]]⟩⟩

/-- Grid with one table slot whose chain holds one bucket with stored
coordinates `(0,0,5)`. -/
def c5grid : Grid := ⟨1, [[⟨0, 0, 5, []⟩]]⟩

/-- Zero-mass body used by the static-pair scenario. -/
noncomputable def c9bodyA : RigidBody := mkBody ⟨0, 0, 0⟩ ⟨1, 2, 3⟩ 0 vzero

/-- Second zero-mass body used by the static-pair scenario. -/
noncomputable def c9bodyB : RigidBody := mkBody ⟨1, 0, 0⟩ ⟨4, 5, 6⟩ 0 vzero

/-- Scene whose grid holds one cell occupied by exactly the two zero-mass
bodies (indices 0 and 1). -/
noncomputable def c9scene : Scene :=
  ⟨[c9bodyA, c9bodyB], vzero, ⟨1, [[⟨0, 0, 0, [0, 1]⟩]]⟩⟩

/-- C8: for every pair of vectors `a` and `b`, `Vec3_sub (Vec3_add a b) b = a`. -/
theorem vec3_add_sub_cancel (a b : PGEVec3) : Vec3_sub (Vec3_add a b) b = a := by
  simp only [Vec3_add, Vec3_sub]
  ext <;> ring

/-- C1, evaluation of the code at the failing input (IEEE model): a joint
between body A of mass 0 at the origin and body B of mass 1 at `(2,0,0)`,
both at rest, zero anchors, rest distance 1.  `Joint_solve` divides by A's
zero mass: `invMass` becomes `+inf`, the impulse becomes the zero vector,
and A's velocity update multiplies that zero by `1/0 = +inf`, so A's
velocity becomes NaN in every component — A is not left unchanged, and B
receives no impulse at all (its velocity stays `(0,0,0)` instead of
gaining B's share of the corrective impulse). -/
theorem joint_solve_zero_mass_nan :
    Joint_solveF vzeroF vzeroF (F.fin 1) vzeroF vzeroF (F.fin 0)
      ⟨F.fin 2, F.fin 0, F.fin 0⟩ vzeroF (F.fin 1) =
    (⟨F.nan, F.nan, F.nan⟩, vzeroF) := by
  have hs : ratSqrt 4 = 2 := by
    have h1 : ((4 : ℚ)).num.toNat = 4 := by decide
    have h2 : ((4 : ℚ)).den = 1 := by decide
    rw [ratSqrt, h1, h2]
    norm_num [natSqrt, List.range_succ]
  norm_num [Joint_solveF, Vec3F_add, Vec3F_sub, Vec3F_scale, Vec3F_length, Vec3F_dot,
    F.add, F.sub, F.neg, F.mul, F.div, F.sqrt, vzeroF, hs]

/-- C2: the joint with two unit-mass bodies at `(0,0,0)` and `(2,0,0)`,
both at rest, zero anchors, rest distance 1: one `Joint_solve` call gives
body A velocity `(0.5,0,0)` and body B velocity `(-0.5,0,0)` exactly. -/
theorem joint_solve_unit_distance_test :
    (Joint_solve ⟨vzero, vzero, 1⟩ (mkBody ⟨0, 0, 0⟩ vzero 1 vzero)
      (mkBody ⟨2, 0, 0⟩ vzero 1 vzero)).1.velocity = ⟨1 / 2, 0, 0⟩ ∧
    (Joint_solve ⟨vzero, vzero, 1⟩ (mkBody ⟨0, 0, 0⟩ vzero 1 vzero)
      (mkBody ⟨2, 0, 0⟩ vzero 1 vzero)).2.velocity = ⟨-(1 / 2), 0, 0⟩ := by
  have h4 : Real.sqrt 4 = 2 := by
    rw [show (4 : ℝ) = 2 ^ 2 by norm_num]
    exact Real.sqrt_sq (by norm_num)
  constructor <;>
  · norm_num [Joint_solve, mkBody, vzero, Vec3_add, Vec3_sub, Vec3_scale, Vec3_dot,
      Vec3_length, h4]

/-- C5, evaluation of the code at the failing input: a grid of size 1
whose only chain holds a bucket with stored coordinates `(0,0,5)`.
Looking up cell `(0,0,7)` returns that bucket — whose `z` is 5, not 7 —
because the chain walk of `pge_get_cell` compares only `x` and `y`. -/
theorem get_cell_returns_wrong_z :
    ((pge_get_cell 0 c5grid 0 0 7).1.z = 5) ∧ ((5 : Int) ≠ 7) := by decide

/-- The squared length `Vec3_dot v v` is nonnegative. -/
lemma Vec3_dot_self_nonneg (v : PGEVec3) : 0 ≤ Vec3_dot v v := by
  simp only [Vec3_dot]
  have hx := mul_self_nonneg v.x
  have hy := mul_self_nonneg v.y
  have hz := mul_self_nonneg v.z
  linarith

/-- A vector has zero squared length exactly when it is the zero vector. -/
lemma Vec3_dot_self_eq_zero_iff (v : PGEVec3) : Vec3_dot v v = 0 ↔ v = vzero := by
  constructor
  · intro h
    simp only [Vec3_dot] at h
    have hx : v.x = 0 := by nlinarith [mul_self_nonneg v.x, mul_self_nonneg v.y, mul_self_nonneg v.z]
    have hy : v.y = 0 := by nlinarith [mul_self_nonneg v.x, mul_self_nonneg v.y, mul_self_nonneg v.z]
    have hz : v.z = 0 := by nlinarith [mul_self_nonneg v.x, mul_self_nonneg v.y, mul_self_nonneg v.z]
    ext <;> simp [vzero, hx, hy, hz]
  · intro h
    subst h
    simp [Vec3_dot, vzero]

/-- A vector has zero length exactly when it is the zero vector. -/
lemma Vec3_length_eq_zero_iff (v : PGEVec3) : Vec3_length v = 0 ↔ v = vzero := by
  rw [Vec3_length, Real.sqrt_eq_zero (Vec3_dot_self_nonneg v), Vec3_dot_self_eq_zero_iff]

/-- Adding the zero vector is the identity. -/
lemma Vec3_add_vzero (v : PGEVec3) : Vec3_add v vzero = v := by
  simp only [Vec3_add, vzero]
  ext <;> simp

/-- Subtracting the zero vector is the identity. -/
lemma Vec3_sub_vzero (v : PGEVec3) : Vec3_sub v vzero = v := by
  simp only [Vec3_sub, vzero]
  ext <;> simp

/-- Scaling the zero vector gives the zero vector. -/
lemma Vec3_scale_vzero (s : ℝ) : Vec3_scale vzero s = vzero := by
  simp only [Vec3_scale, vzero]
  ext <;> simp

/-- C6: normalizing any nonzero vector yields length within `1e-3` of 1
(in fact exactly 1 in exact arithmetic), and normalizing the zero vector
returns the zero vector unchanged. -/
theorem normalized_unit_length (v : PGEVec3) (h : v ≠ vzero) :
    |Vec3_length (Vec3_normalized v) - 1| ≤ 1 / 1000 ∧ Vec3_normalized vzero = vzero := by
  constructor
  · have hd : 0 < Vec3_dot v v :=
      lt_of_le_of_ne (Vec3_dot_self_nonneg v)
        (fun he => h ((Vec3_dot_self_eq_zero_iff v).mp he.symm))
    have hl : 0 < Vec3_length v := Real.sqrt_pos.mpr hd
    have hln : Vec3_length v ≠ 0 := ne_of_gt hl
    have hnorm : Vec3_normalized v = Vec3_scale v (1 / Vec3_length v) := by
      rw [Vec3_normalized, if_neg hln]
    have hscale : Vec3_dot (Vec3_scale v (1 / Vec3_length v)) (Vec3_scale v (1 / Vec3_length v))
        = (1 / Vec3_length v) ^ 2 * Vec3_dot v v := by
      simp only [Vec3_scale, Vec3_dot]
      ring
    have hone : Vec3_length (Vec3_normalized v) = 1 := by
      rw [hnorm, Vec3_length, hscale, Real.sqrt_mul (by positivity) _,
        Real.sqrt_sq (by positivity),
        show Real.sqrt (Vec3_dot v v) = Vec3_length v from rfl]
      exact one_div_mul_cancel hln
    rw [hone]
    norm_num
  · rw [Vec3_normalized, if_pos ((Vec3_length_eq_zero_iff vzero).mpr rfl)]

/-- C6 witness at the concrete nonzero vector `(3,4,0)`. -/
theorem normalized_unit_length_witness :
    (⟨3, 4, 0⟩ : PGEVec3) ≠ vzero ∧
    (|Vec3_length (Vec3_normalized ⟨3, 4, 0⟩) - 1| ≤ 1 / 1000 ∧
      Vec3_normalized vzero = vzero) := by
  have h : (⟨3, 4, 0⟩ : PGEVec3) ≠ vzero := by
    intro he
    have hx := congrArg PGEVec3.x he
    norm_num [vzero] at hx
  exact ⟨h, normalized_unit_length _ h⟩

/-- Velocity updates that subtract `impulse/mA` from A and add `impulse/mB`
to B leave `mA*vA + mB*vB` unchanged whenever both masses are nonzero. -/
lemma momentum_transfer (vA vB impulse : PGEVec3) (mA mB : ℝ)
    (hA : mA ≠ 0) (hB : mB ≠ 0) :
    Vec3_add (Vec3_scale (Vec3_sub vA (Vec3_scale impulse (1 / mA))) mA)
      (Vec3_scale (Vec3_add vB (Vec3_scale impulse (1 / mB))) mB) =
    Vec3_add (Vec3_scale vA mA) (Vec3_scale vB mB) := by
  ext <;> (simp only [Vec3_add, Vec3_sub, Vec3_scale]; field_simp; try ring)

/-- C10: for a joint whose bodies both have positive mass, `Joint_solve`
preserves total linear momentum `mA*vA + mB*vB`. -/
theorem joint_solve_momentum (j : Joint) (A B : RigidBody)
    (hA : 0 < A.mass) (hB : 0 < B.mass) :
    Vec3_add (Vec3_scale (Joint_solve j A B).1.velocity A.mass)
      (Vec3_scale (Joint_solve j A B).2.velocity B.mass) =
    Vec3_add (Vec3_scale A.velocity A.mass) (Vec3_scale B.velocity B.mass) := by
  simp only [Joint_solve]
  exact momentum_transfer A.velocity B.velocity _ A.mass B.mass (ne_of_gt hA) (ne_of_gt hB)

/-- C10 witness: the unit-mass joint configuration of the spec's test. -/
theorem joint_solve_momentum_witness :
    (0 : ℝ) < (mkBody ⟨0, 0, 0⟩ vzero 1 vzero).mass ∧
    Vec3_add (Vec3_scale (Joint_solve ⟨vzero, vzero, 1⟩ (mkBody ⟨0, 0, 0⟩ vzero 1 vzero)
        (mkBody ⟨2, 0, 0⟩ vzero 1 vzero)).1.velocity (mkBody ⟨0, 0, 0⟩ vzero 1 vzero).mass)
      (Vec3_scale (Joint_solve ⟨vzero, vzero, 1⟩ (mkBody ⟨0, 0, 0⟩ vzero 1 vzero)
        (mkBody ⟨2, 0, 0⟩ vzero 1 vzero)).2.velocity (mkBody ⟨2, 0, 0⟩ vzero 1 vzero).mass) =
    Vec3_add (Vec3_scale (mkBody ⟨0, 0, 0⟩ vzero 1 vzero).velocity
        (mkBody ⟨0, 0, 0⟩ vzero 1 vzero).mass)
      (Vec3_scale (mkBody ⟨2, 0, 0⟩ vzero 1 vzero).velocity
        (mkBody ⟨2, 0, 0⟩ vzero 1 vzero).mass) := by
  have h1 : (0 : ℝ) < (mkBody ⟨0, 0, 0⟩ vzero 1 vzero).mass := by norm_num [mkBody]
  have h2 : (0 : ℝ) < (mkBody ⟨2, 0, 0⟩ vzero 1 vzero).mass := by norm_num [mkBody]
  exact ⟨h1, joint_solve_momentum _ _ _ h1 h2⟩

/-- C4 counterexample (IEEE model): two coincident bodies at the origin
with masses 0 and 1, both at rest, in one cell.  The collision loop's
zero-separation check (`len == 0 -> continue`, line 162) skips the pair
and changes neither velocity, while `Joint_solve` on the same pair with
zero anchors and rest distance 1 takes its zero-length branch, computes a
zero impulse, and then scales it by the zero-mass body's infinite inverse
mass, turning that body's velocity into NaN — so the velocity changes of
the two routines differ on a pair where not both masses are zero. -/
theorem resolve_pair_ne_joint_solve_zero_mass :
    resolve_pairF vzeroF vzeroF (F.fin 0) vzeroF vzeroF (F.fin 1) = (vzeroF, vzeroF) ∧
    Joint_solveF vzeroF vzeroF (F.fin 1) vzeroF vzeroF (F.fin 0) vzeroF vzeroF (F.fin 1) =
      (⟨F.nan, F.nan, F.nan⟩, vzeroF) ∧
    resolve_pairF vzeroF vzeroF (F.fin 0) vzeroF vzeroF (F.fin 1) ≠
      Joint_solveF vzeroF vzeroF (F.fin 1) vzeroF vzeroF (F.fin 0) vzeroF vzeroF (F.fin 1) := by
  have hs : ratSqrt 0 = 0 := by
    have h1 : ((0 : ℚ)).num.toNat = 0 := by decide
    have h2 : ((0 : ℚ)).den = 1 := by decide
    rw [ratSqrt, h1, h2]
    norm_num [natSqrt, List.range_succ]
  have h1 : resolve_pairF vzeroF vzeroF (F.fin 0) vzeroF vzeroF (F.fin 1) =
      (vzeroF, vzeroF) := by
    norm_num [resolve_pairF, Vec3F_add, Vec3F_sub, Vec3F_scale, Vec3F_length, Vec3F_dot,
      F.add, F.sub, F.neg, F.mul, F.div, F.sqrt, vzeroF, hs]
  have h2 : Joint_solveF vzeroF vzeroF (F.fin 1) vzeroF vzeroF (F.fin 0) vzeroF vzeroF
      (F.fin 1) = (⟨F.nan, F.nan, F.nan⟩, vzeroF) := by
    norm_num [Joint_solveF, Vec3F_add, Vec3F_sub, Vec3F_scale, Vec3F_length, Vec3F_dot,
      F.add, F.sub, F.neg, F.mul, F.div, F.sqrt, vzeroF, hs]
  refine ⟨h1, h2, ?_⟩
  rw [h1, h2]
  decide

/-- C4 (amended): within a grid cell, resolving a pair whose masses are
both positive applies exactly the velocity changes of `Joint_solve` on a
joint over the same two bodies with zero anchors (body centers) and rest
distance 1.  Positive masses keep every division on both paths away from
IEEE special values, so the exact model is faithful on this domain; the
only divergence between the two routines, the zero-separation branch with
a degenerate mass, is the counterexample above. -/
theorem resolve_pair_eq_joint_solve_pos_mass (A B : RigidBody)
    (hA : 0 < A.mass) (_hB : 0 < B.mass) :
    resolve_pair A B = Joint_solve ⟨vzero, vzero, 1⟩ A B := by
  rw [resolve_pair, if_neg (fun hc => absurd hc.1 (ne_of_gt hA))]
  simp only [Joint_solve, Vec3_add_vzero]
  split_ifs with h0
  · rw [(Vec3_length_eq_zero_iff _).mp h0]
    simp only [Vec3_scale_vzero, Vec3_sub_vzero, Vec3_add_vzero]
  · rfl

/-- C4 witness: two unit-mass bodies at distance 2. -/
theorem resolve_pair_eq_joint_solve_pos_mass_witness :
    (0 : ℝ) < (mkBody ⟨0, 0, 0⟩ vzero 1 vzero).mass ∧
    (0 : ℝ) < (mkBody ⟨2, 0, 0⟩ vzero 1 vzero).mass ∧
    resolve_pair (mkBody ⟨0, 0, 0⟩ vzero 1 vzero) (mkBody ⟨2, 0, 0⟩ vzero 1 vzero) =
      Joint_solve ⟨vzero, vzero, 1⟩ (mkBody ⟨0, 0, 0⟩ vzero 1 vzero)
        (mkBody ⟨2, 0, 0⟩ vzero 1 vzero) := by
  have h1 : (0 : ℝ) < (mkBody ⟨0, 0, 0⟩ vzero 1 vzero).mass := by norm_num [mkBody]
  have h2 : (0 : ℝ) < (mkBody ⟨2, 0, 0⟩ vzero 1 vzero).mass := by norm_num [mkBody]
  exact ⟨h1, h2, resolve_pair_eq_joint_solve_pos_mass _ _ h1 h2⟩

/-- Sum of four squared quotients over a common nonzero denominator. -/
lemma div_sq_sum (w x y z m : ℝ) (hm : m ≠ 0) :
    w / m * (w / m) + x / m * (x / m) + y / m * (y / m) + z / m * (z / m)
      = (w * w + x * x + y * y + z * z) / (m * m) := by
  field_simp
  try ring

/-- Normalizing a quaternion of positive squared magnitude yields magnitude
exactly 1. -/
lemma Quaternion_mag_normalized (q : PGEQuat)
    (h : 0 < q.w * q.w + q.x * q.x + q.y * q.y + q.z * q.z) :
    Quaternion_mag (Quaternion_normalized q) = 1 := by
  have hmpos : 0 < Real.sqrt (q.w * q.w + q.x * q.x + q.y * q.y + q.z * q.z) :=
    Real.sqrt_pos.mpr h
  have hmm := Real.mul_self_sqrt h.le
  simp only [Quaternion_normalized, Quaternion_mag]
  rw [div_sq_sum _ _ _ _ _ (ne_of_gt hmpos), hmm, div_self (ne_of_gt h), Real.sqrt_one]

/-- Integrating the identity orientation yields the normalization of
`(1, av.x*dt/2, av.y*dt/2, av.z*dt/2)`. -/
lemma pge_quat_integrate_identity (av : PGEVec3) (dt : ℝ) :
    pge_quat_integrate Quaternion_identity av dt =
      Quaternion_normalized
        ⟨1, av.x * (1 / 2) * dt, av.y * (1 / 2) * dt, av.z * (1 / 2) * dt⟩ := by
  simp only [pge_quat_integrate, Quaternion_identity, Quaternion_mul, Quaternion_scale]
  congr 1
  ext <;> dsimp <;> ring

/-- Integrating the identity with any angular velocity leaves a
unit-magnitude quaternion. -/
lemma quat_integrate_identity_mag (av : PGEVec3) (dt : ℝ) :
    Quaternion_mag (pge_quat_integrate Quaternion_identity av dt) = 1 := by
  rw [pge_quat_integrate_identity]
  apply Quaternion_mag_normalized
  dsimp
  nlinarith [mul_self_nonneg (av.x * (1 / 2) * dt), mul_self_nonneg (av.y * (1 / 2) * dt),
    mul_self_nonneg (av.z * (1 / 2) * dt)]

/-- A product `a * (1/2) * dt` with `dt` nonzero vanishes only when `a`
does. -/
lemma half_dt_factor_zero {a dt : ℝ} (hdt : dt ≠ 0) (h : a * (1 / 2) * dt = 0) : a = 0 := by
  rcases mul_eq_zero.mp h with h1 | h1
  · rcases mul_eq_zero.mp h1 with h2 | h2
    · exact h2
    · norm_num at h2
  · exact absurd h1 hdt

/-- Integrating the identity with nonzero angular velocity over nonzero
`dt` moves the orientation off the identity. -/
lemma quat_integrate_identity_ne (av : PGEVec3) (dt : ℝ)
    (hav : av ≠ vzero) (hdt : dt ≠ 0) :
    pge_quat_integrate Quaternion_identity av dt ≠ Quaternion_identity := by
  rw [pge_quat_integrate_identity]
  intro he
  have hs : 0 < 1 * 1 + av.x * (1 / 2) * dt * (av.x * (1 / 2) * dt) +
      av.y * (1 / 2) * dt * (av.y * (1 / 2) * dt) +
      av.z * (1 / 2) * dt * (av.z * (1 / 2) * dt) := by
    nlinarith [mul_self_nonneg (av.x * (1 / 2) * dt), mul_self_nonneg (av.y * (1 / 2) * dt),
      mul_self_nonneg (av.z * (1 / 2) * dt)]
  have hm : Real.sqrt (1 * 1 + av.x * (1 / 2) * dt * (av.x * (1 / 2) * dt) +
      av.y * (1 / 2) * dt * (av.y * (1 / 2) * dt) +
      av.z * (1 / 2) * dt * (av.z * (1 / 2) * dt)) ≠ 0 :=
    ne_of_gt (Real.sqrt_pos.mpr hs)
  simp only [Quaternion_normalized, Quaternion_mag, Quaternion_identity, PGEQuat.ext_iff] at he
  obtain ⟨hw, hx, hy, hz⟩ := he
  rcases div_eq_zero_iff.mp hx with h1 | h1
  rcases div_eq_zero_iff.mp hy with h2 | h2
  rcases div_eq_zero_iff.mp hz with h3 | h3
  · exact hav (by ext <;> simp [vzero, half_dt_factor_zero hdt h1,
      half_dt_factor_zero hdt h2, half_dt_factor_zero hdt h3])
  · exact hm h3
  · exact hm h2
  · exact hm h1

/-- C7: quaternion integration from the identity with nonzero angular
velocity and nonzero `dt` changes at least one component (the result is
not the identity) and keeps the magnitude within `1e-3` of 1 (exactly 1
in exact arithmetic). -/
theorem quat_integrate_identity_changes (av : PGEVec3) (dt : ℝ)
    (hav : av ≠ vzero) (hdt : dt ≠ 0) :
    pge_quat_integrate Quaternion_identity av dt ≠ Quaternion_identity ∧
    |Quaternion_mag (pge_quat_integrate Quaternion_identity av dt) - 1| ≤ 1 / 1000 := by
  refine ⟨quat_integrate_identity_ne av dt hav hdt, ?_⟩
  rw [quat_integrate_identity_mag av dt]
  norm_num

/-- C7 witness at angular velocity `(0,1,0)` and `dt = 1`. -/
theorem quat_integrate_identity_changes_witness :
    (⟨0, 1, 0⟩ : PGEVec3) ≠ vzero ∧ (1 : ℝ) ≠ 0 ∧
    (pge_quat_integrate Quaternion_identity ⟨0, 1, 0⟩ 1 ≠ Quaternion_identity ∧
      |Quaternion_mag (pge_quat_integrate Quaternion_identity ⟨0, 1, 0⟩ 1) - 1| ≤ 1 / 1000) := by
  have h1 : (⟨0, 1, 0⟩ : PGEVec3) ≠ vzero := by
    intro he
    have hy := congrArg PGEVec3.y he
    norm_num [vzero] at hy
  exact ⟨h1, one_ne_zero, quat_integrate_identity_changes _ _ h1 one_ne_zero⟩

/-- C3: one `scene_update` step with gravity `(0,-9.81,0)` and `dt = 1` on
a unit-mass body with velocity `(1,0,0)` and angular velocity `(0,1,0)`:
velocity becomes `(1,-9.81,0)`, position becomes `(1,-9.81,0)`
(semi-implicit Euler integrates with the updated velocity), and the
orientation leaves the identity. -/
theorem scene_update_gravity_test :
    ((scene_update c3scene 1).bodies[0]?).map RigidBody.velocity = some ⟨1, -(981 / 100), 0⟩ ∧
    ((scene_update c3scene 1).bodies[0]?).map RigidBody.position = some ⟨1, -(981 / 100), 0⟩ ∧
    ((scene_update c3scene 1).bodies[0]?).map RigidBody.rot ≠ some Quaternion_identity := by
  have hrot : pge_quat_integrate Quaternion_identity ⟨0, 1, 0⟩ 1 ≠ Quaternion_identity := by
    apply quat_integrate_identity_ne
    · intro he
      have hy := congrArg PGEVec3.y he
      norm_num [vzero] at hy
    · exact one_ne_zero
  refine ⟨?_, ?_, ?_⟩
  · norm_num [scene_update, c3scene, mkBody, scene_update_body, RigidBody_integrate,
      Vec3_add, Vec3_scale]
  · norm_num [scene_update, c3scene, mkBody, scene_update_body, RigidBody_integrate,
      Vec3_add, Vec3_scale]
  · simp only [scene_update, c3scene, mkBody, scene_update_body, RigidBody_integrate,
      List.map_cons, List.map_nil]
    simp only [List.getElem?_cons_zero, Option.map_some]
    intro he
    exact hrot (by simpa using he)

/-- Both components of a pair produced by `pairsOf` occur in the list. -/
lemma mem_pairsOf {l : List Nat} {p : Nat × Nat} (hp : p ∈ pairsOf l) :
    p.1 ∈ l ∧ p.2 ∈ l := by
  induction l with
  | nil => simp [pairsOf] at hp
  | cons a rest ih =>
      simp only [pairsOf, List.mem_append, List.mem_map] at hp
      rcases hp with ⟨b, hb, rfl⟩ | hp
      · exact ⟨List.mem_cons_self a rest, List.mem_cons_of_mem _ hb⟩
      · have h := ih hp
        exact ⟨List.mem_cons_of_mem _ h.1, List.mem_cons_of_mem _ h.2⟩

/-- `resolve_pair_in` leaves every index other than the two it writes
unchanged. -/
lemma resolve_pair_in_getElem_ne (bodies : List RigidBody) (ia ib j : Nat)
    (hja : j ≠ ia) (hjb : j ≠ ib) :
    (resolve_pair_in bodies ia ib)[j]? = bodies[j]? := by
  rw [resolve_pair_in]
  cases bodies[ia]? with
  | none => rfl
  | some a =>
      cases bodies[ib]? with
      | none => rfl
      | some b =>
          dsimp only
          rw [List.getElem?_set_ne (Ne.symm hjb), List.getElem?_set_ne (Ne.symm hja)]

/-- Folding pair resolution over pairs that avoid index `j` preserves the
entry at `j`. -/
lemma foldl_resolve_preserve (ps : List (Nat × Nat)) (bodies : List RigidBody) (j : Nat)
    (h : ∀ p ∈ ps, p.1 ≠ j ∧ p.2 ≠ j) :
    (ps.foldl (fun bs p => resolve_pair_in bs p.1 p.2) bodies)[j]? = bodies[j]? := by
  induction ps generalizing bodies with
  | nil => rfl
  | cons p rest ih =>
      rw [List.foldl_cons, ih _ (fun q hq => h q (List.mem_cons_of_mem _ hq))]
      exact resolve_pair_in_getElem_ne bodies p.1 p.2 j
        (Ne.symm (h p (List.mem_cons_self _ _)).1) (Ne.symm (h p (List.mem_cons_self _ _)).2)

/-- A pair of zero-mass bodies is skipped unchanged by `resolve_pair`. -/
lemma resolve_pair_static (a b : RigidBody) (hma : a.mass = 0) (hmb : b.mass = 0) :
    resolve_pair a b = (a, b) := by
  rw [resolve_pair, if_pos ⟨hma, hmb⟩]

/-- An index whose lookup succeeds is within bounds. -/
lemma lt_length_of_getElem_some {l : List RigidBody} {i : Nat} {a : RigidBody}
    (h : l[i]? = some a) : i < l.length := by
  by_contra hc
  rw [List.getElem?_eq_none (Nat.le_of_not_lt hc)] at h
  exact Option.noConfusion h

/-- Processing one cell that either is exactly the static pair's cell or
avoids both of its indices preserves the entries at `ia` and `ib`. -/
lemma scene_detect_cell_preserve (bodies : List RigidBody) (c : Cell) (ia ib : Nat)
    (a b : RigidBody) (hne : ia ≠ ib) (hma : a.mass = 0) (hmb : b.mass = 0)
    (hia : bodies[ia]? = some a) (hib : bodies[ib]? = some b)
    (hgood : c.bodies = [ia, ib] ∨ (ia ∉ c.bodies ∧ ib ∉ c.bodies)) :
    (scene_detect_cell bodies c)[ia]? = some a ∧ (scene_detect_cell bodies c)[ib]? = some b := by
  rcases hgood with hc | ⟨hna, hnb⟩
  · have hlt : ia < bodies.length := lt_length_of_getElem_some hia
    rw [scene_detect_cell, hc]
    simp only [List.length_cons, List.length_nil]
    rw [if_neg (by norm_num)]
    simp only [pairsOf, List.map_cons, List.map_nil, List.append_nil, List.nil_append,
      List.foldl_cons, List.foldl_nil]
    rw [resolve_pair_in]
    rw [hia, hib]
    dsimp only
    rw [resolve_pair_static a b hma hmb]
    dsimp only
    constructor
    · rw [List.getElem?_set_ne (Ne.symm hne), List.getElem?_set_eq_of_lt a hlt]
    · have hltb : ib < bodies.length := lt_length_of_getElem_some hib
      rw [List.getElem?_set_eq_of_lt b (by simpa using hltb)]
  · rw [scene_detect_cell]
    split_ifs with hlen
    · exact ⟨hia, hib⟩
    · constructor
      · rw [foldl_resolve_preserve _ _ _ (fun p hp =>
          ⟨fun he => hna (by rw [← he]; exact (mem_pairsOf hp).1),
           fun he => hna (by rw [← he]; exact (mem_pairsOf hp).2)⟩), hia]
      · rw [foldl_resolve_preserve _ _ _ (fun p hp =>
          ⟨fun he => hnb (by rw [← he]; exact (mem_pairsOf hp).1),
           fun he => hnb (by rw [← he]; exact (mem_pairsOf hp).2)⟩), hib]

/-- Folding the per-slot contact work over chains whose processed head
cells are each either the static pair's cell or avoid its indices
preserves the two entries. -/
lemma detect_fold_preserve (chains : List (List Cell)) (bodies : List RigidBody)
    (ia ib : Nat) (a b : RigidBody) (hne : ia ≠ ib)
    (hma : a.mass = 0) (hmb : b.mass = 0)
    (hgood : ∀ chain ∈ chains, ∀ c, chain.head? = some c →
      c.bodies = [ia, ib] ∨ (ia ∉ c.bodies ∧ ib ∉ c.bodies))
    (hia : bodies[ia]? = some a) (hib : bodies[ib]? = some b) :
    ((chains.foldl (fun bs chain =>
        match chain.head? with
        | none => bs
        | some cell => scene_detect_cell bs cell) bodies)[ia]? = some a) ∧
    ((chains.foldl (fun bs chain =>
        match chain.head? with
        | none => bs
        | some cell => scene_detect_cell bs cell) bodies)[ib]? = some b) := by
  induction chains generalizing bodies with
  | nil => exact ⟨hia, hib⟩
  | cons chain rest ih =>
      rw [List.foldl_cons]
      cases hh : chain.head? with
      | none =>
          simp only [hh]
          exact ih _ (fun ch hch => hgood ch (List.mem_cons_of_mem _ hch)) hia hib
      | some c =>
          simp only [hh]
          have hpres := scene_detect_cell_preserve bodies c ia ib a b hne hma hmb hia hib
            (hgood chain (List.mem_cons_self _ _) c hh)
          exact ih _ (fun ch hch => hgood ch (List.mem_cons_of_mem _ hch)) hpres.1 hpres.2

/-- C9: when the grid holds a cell occupied by exactly two zero-mass
bodies (and those bodies occur in no other processed cell),
`scene_detect_collisions` skips the pair and leaves both velocities
unchanged. -/
theorem static_pair_velocities_unchanged (s : Scene) (ia ib : Nat) (a b : RigidBody)
    (hne : ia ≠ ib)
    (hia : s.bodies[ia]? = some a) (hib : s.bodies[ib]? = some b)
    (hma : a.mass = 0) (hmb : b.mass = 0)
    (_hocc : ∃ chain ∈ s.grid.table, ∃ c, chain.head? = some c ∧ c.bodies = [ia, ib])
    (hgood : ∀ chain ∈ s.grid.table, ∀ c, chain.head? = some c →
      c.bodies = [ia, ib] ∨ (ia ∉ c.bodies ∧ ib ∉ c.bodies)) :
    ((scene_detect_collisions s).bodies[ia]?).map RigidBody.velocity = some a.velocity ∧
    ((scene_detect_collisions s).bodies[ib]?).map RigidBody.velocity = some b.velocity := by
  have h := detect_fold_preserve s.grid.table s.bodies ia ib a b hne hma hmb hgood hia hib
  simp only [scene_detect_collisions]
  rw [h.1, h.2]
  exact ⟨rfl, rfl⟩

/-- C9 witness: the concrete two-static-body scene. -/
theorem static_pair_velocities_unchanged_witness :
    (0 : Nat) ≠ 1 ∧ c9bodyA.mass = 0 ∧ c9bodyB.mass = 0 ∧
    (((scene_detect_collisions c9scene).bodies[0]?).map RigidBody.velocity =
        some c9bodyA.velocity ∧
      ((scene_detect_collisions c9scene).bodies[1]?).map RigidBody.velocity =
        some c9bodyB.velocity) := by
  have hocc : ∃ chain ∈ c9scene.grid.table, ∃ c, chain.head? = some c ∧
      c.bodies = [0, 1] := by
    refine ⟨[⟨0, 0, 0, [0, 1]⟩], by simp [c9scene], ⟨0, 0, 0, [0, 1]⟩, rfl, rfl⟩
  have hgood : ∀ chain ∈ c9scene.grid.table, ∀ c, chain.head? = some c →
      c.bodies = [0, 1] ∨ ((0 : Nat) ∉ c.bodies ∧ (1 : Nat) ∉ c.bodies) := by
    intro chain hch c hc
    simp only [c9scene, List.mem_singleton] at hch
    subst hch
    simp only [List.head?_cons, Option.some.injEq] at hc
    subst hc
    left
    rfl
  exact ⟨by decide, rfl, rfl,
    static_pair_velocities_unchanged c9scene 0 1 c9bodyA c9bodyB (by decide) rfl rfl rfl rfl
      hocc hgood⟩
